import Mathlib

/-!
# Verification of the chat-statistics core

A shallow embedding of `src/chat-statistics/stats.py`
(`ChatStatistics.rebuild_msg`, `msg_has_question`, `get_top_users`,
`process_text` and the corpus-building loop of `generate_word_cloud`),
together with proofs of the specified properties.

Modelling conventions:
* Python `str` becomes `String`; message ids are Python ints, so `Int`.
* The `text` field of a message is either a plain string or a list of
  segments; a segment is either a plain string or a tagged-entity record
  (a dict) whose `text` field may be absent.  The record's other entries
  (entity metadata) are carried as an inert payload.
* Code that can raise (`sub_msg['text']` on a dict without the key, a
  `KeyError`) returns `Option`; `none` is the propagating exception.
* The external tokenizer/normalizer (`hazm.word_tokenize`,
  `Normalizer.normalize`) and the stopword file contents are parameters
  (`tok`, `canon`, `stops`): the code under verification only composes
  them.
* `defaultdict(bool)` (`is_question`) is modelled as an association list
  consulted through `getIdx`, which returns `false` for a missing key;
  writes shadow by prepending (only lookups are ever observed, so
  insertion order of this dict is irrelevant).
* The `users` dict is an association list in insertion order (Python
  dicts preserve insertion order, and `users.items()` is iterated), with
  in-place value update leaving the key's position unchanged.
-/

/-- A tagged-entity record or plain-string segment of a message text.
`record o meta` is a dict whose `text` field is `o` (`none` when the key
is absent) and whose remaining entity metadata is `meta` (never
inspected). -/
inductive Segment where
  | str : String → Segment
  | record : Option String → List (String × String) → Segment
deriving DecidableEq, Repr

/-- The `text` field of a message: a plain string or a list of segments. -/
inductive Text where
  | plain : String → Text
  | seq : List Segment → Text
deriving DecidableEq, Repr

/-- A Telegram message as used by the core: `id`, `from` (display name,
renamed `fromName` since `from` is a Lean keyword), `from_id`,
optional `reply_to_message_id`, and `text`. -/
structure Message where
  id : Int
  fromName : String
  from_id : String
  reply_to_message_id : Option Int
  text : Text
deriving DecidableEq, Repr

/-- The per-user record built by `get_top_users`:
`{'name': ..., 'replies': [...]}`. -/
structure URec where
  name : String
  replies : List Int
deriving DecidableEq, Repr

/-- The text contributed by one segment: a plain string as-is, a record's
`text` field; `none` models the `KeyError` raised by `sub_msg['text']`
when the field is absent. -/
def segText : Segment → Option String
  | .str t => some t
  | .record o _ => o

/-- The loop of `rebuild_msg`: `msg_text += piece + " "` over the
segments, aborting at the first record without a `text` field. -/
def rebuildMsgAux : List Segment → String → Option String
  | [], acc => some acc
  | s :: rest, acc =>
    match segText s with
    | none => none
    | some t => rebuildMsgAux rest (acc ++ (t ++ " "))

/-- `ChatStatistics.rebuild_msg`. -/
def rebuildMsg (segs : List Segment) : Option String :=
  rebuildMsgAux segs ""

/-- Flattening of a message `text` field as performed by
`msg_has_question` and `generate_word_cloud`: a plain string is used
unchanged, a list goes through `rebuild_msg`. -/
def flattenText : Text → Option String
  | .plain s => some s
  | .seq segs => rebuildMsg segs

/-- `'?' in text or '؟' in text`: a one-character substring test is
membership of that character in the string's characters. -/
def hasQuestionMark (t : String) : Bool :=
  t.data.any (fun c => c == '?') || t.data.any (fun c => c == '؟')

/-- `ChatStatistics.msg_has_question`. -/
def msgHasQuestion (m : Message) : Option Bool :=
  (flattenText m.text).map hasQuestionMark

/-- Lookup in the `is_question` mapping with the `defaultdict(bool)`
default: a missing key reads as `false`. -/
def getIdx (idx : List (Int × Bool)) (k : Int) : Bool :=
  match idx.find? (fun p => p.1 == k) with
  | some p => p.2
  | none => false

/-- First pass of `get_top_users`:
`is_question[msg['id']] = self.msg_has_question(msg)` for every message
(a write shadows older entries by prepending). -/
def buildQIndexAux : List Message → List (Int × Bool) → Option (List (Int × Bool))
  | [], idx => some idx
  | m :: rest, idx =>
    match msgHasQuestion m with
    | none => none
    | some q => buildQIndexAux rest ((m.id, q) :: idx)

/-- The complete question index of a chat log. -/
def buildQIndex (msgs : List Message) : Option (List (Int × Bool)) :=
  buildQIndexAux msgs []

/-- One iteration of the reply scan of `get_top_users`:
skip when `reply_to_message_id` is missing or falsy (`0`); append the
target id unconditionally when `from_id` is already tracked; otherwise
create a record only when the target is marked as a question. -/
def scanStep (qidx : List (Int × Bool)) (users : List (String × URec))
    (m : Message) : List (String × URec) :=
  match m.reply_to_message_id with
  | none => users
  | some r =>
    if r == 0 then users
    else if users.any (fun p => p.1 == m.from_id) then
      users.map (fun p =>
        if p.1 == m.from_id then (p.1, ⟨p.2.name, p.2.replies ++ [r]⟩) else p)
    else if getIdx qidx r then users ++ [(m.from_id, ⟨m.fromName, [r]⟩)]
    else users

/-- The full reply scan over the chat log. -/
def scanUsers (log : List Message) (qidx : List (Int × Bool)) :
    List (String × URec) :=
  log.foldl (scanStep qidx) []

/-- `reply_conut = [(k, len(v['replies'])) for k, v in users.items()]`. -/
def replyCount (users : List (String × URec)) : List (String × Nat) :=
  users.map (fun p => (p.1, p.2.replies.length))

/-- Stable insertion keeping everything with a strictly greater key in
front: the insertion step of a stable descending sort by `key`. -/
def insertDesc (key : α → Nat) (x : α) : List α → List α
  | [] => [x]
  | y :: ys => if key x < key y then y :: insertDesc key x ys else x :: y :: ys

/-- `sorted(l, key=..., reverse=True)`: Python's sort is stable, and with
`reverse=True` it orders keys descending while equal-key elements keep
their original relative order; a stable insertion sort realises exactly
that specification. -/
def sortDesc (key : α → Nat) (l : List α) : List α :=
  l.foldr (insertDesc key) []

/-- `users[user[0]]['name']`: the display name stored for a `from_id`
(the key is always present when this is called; the `""` default is
unreachable there). -/
def getName (users : List (String × URec)) (k : String) : String :=
  match users.find? (fun p => p.1 == k) with
  | some p => p.2.name
  | none => ""

/-- `users_with_most_replies`: sort the `(from_id, count)` pairs by count
descending (stable) and map each to `(display name, count)`. -/
def usersWithMostReplies (users : List (String × URec)) : List (String × Nat) :=
  (sortDesc (fun x => x.2) (replyCount users)).map
    (fun u => (getName users u.1, u.2))

/-- `get_top_users` after the question index is available: reply scan,
ranking, truncation to `top_n`. -/
def topRepliersIdx (log : List Message) (qidx : List (Int × Bool))
    (top_n : Nat) : List (String × Nat) :=
  (usersWithMostReplies (scanUsers log qidx)).take top_n

/-- `ChatStatistics.get_top_users` (`none` models a `KeyError` escaping
from the question-index pass). -/
def topRepliers (log : List Message) (top_n : Nat) :
    Option (List (String × Nat)) :=
  (buildQIndex log).map (fun qidx => topRepliersIdx log qidx top_n)

/-- The canonicalized stopword set:
`set(map(self.normalizer.normalize, stop_words))` (membership in the
Python set coincides with membership in this list). -/
def stopSet (canon : String → String) (stops : List String) : List String :=
  stops.map canon

/-- The token filter of `process_text`:
`filter(lambda item: item not in self.stop_words, tokens)` — the raw
token is tested against the canonicalized stopword set. -/
def filteredTokens (tok : String → List String) (canon : String → String)
    (stops : List String) (text : String) : List String :=
  (tok text).filter (fun item => !(stopSet canon stops).contains item)

/-- `ChatStatistics.process_text`: tokenize, drop stopwords, rejoin with
single spaces, normalize the joined result once. -/
def processText (tok : String → List String) (canon : String → String)
    (stops : List String) (text : String) : String :=
  canon (String.intercalate " " (filteredTokens tok canon stops text))

/-- The corpus loop of `generate_word_cloud`:
`text_content += f" {content}"` per message, where `content` is the
flattened then processed text; a `KeyError` from flattening aborts. -/
def buildCorpusAux (tok : String → List String) (canon : String → String)
    (stops : List String) : List Message → String → Option String
  | [], acc => some acc
  | m :: rest, acc =>
    match flattenText m.text with
    | none => none
    | some t =>
      buildCorpusAux tok canon stops rest
        (acc ++ (" " ++ processText tok canon stops t))

/-- The corpus string handed to the reshaper in `generate_word_cloud`. -/
def buildCorpus (tok : String → List String) (canon : String → String)
    (stops : List String) (msgs : List Message) : Option String :=
  buildCorpusAux tok canon stops msgs ""

/-- §8 quirk scenario, message A: `id=1, text="is this ok?"`. -/
def msgA : Message := ⟨1, "Asker", "U0", none, .plain "is this ok?"⟩

/-- §8 quirk scenario, message B: `id=2, from_id=U1, reply_to=1`. -/
def msgB : Message := ⟨2, "U1name", "U1", some 1, .plain "yes"⟩

/-- §8 quirk scenario, message C: `id=3, from_id=U1, reply_to=2`. -/
def msgC : Message := ⟨3, "U1name", "U1", some 2, .plain "thanks"⟩

/-- The §8 quirk chat log in its given order. -/
def quirkLog : List Message := [msgA, msgB, msgC]

/-- The §8 quirk chat log with U1's two replies permuted (the reply to
the non-question now comes first). -/
def quirkLogSwapped : List Message := [msgA, msgC, msgB]

/-- A chat log exercising a falsy (`0`) `reply_to_message_id`: message
id `0` exists and is a question, `U9` is already tracked when its reply
targeting id `0` is scanned, yet that reply is skipped. -/
def msgZero : Message := ⟨0, "Zed", "U8", none, .plain "ok?"⟩

/-- A second question so that `U9` can qualify first. -/
def msgQ1 : Message := ⟨1, "Quinn", "U7", none, .plain "x?"⟩

/-- `U9`'s qualifying reply to question id `1`. -/
def msgP : Message := ⟨2, "Nine", "U9", some 1, .plain "a"⟩

/-- `U9`'s reply with `reply_to_message_id = 0` (falsy). -/
def msgZ : Message := ⟨3, "Nine", "U9", some 0, .plain "b"⟩

/-- The chat log of the falsy-`reply_to` scenario. -/
def zeroLog : List Message := [msgZero, msgQ1, msgP, msgZ]

/-- The leaf texts of a segment list in order, `none` as soon as one
record lacks its `text` field (left-to-right, like the loop). -/
def segTexts : List Segment → Option (List String)
  | [] => some []
  | s :: rest =>
    match segText s with
    | none => none
    | some t => (segTexts rest).map (fun ts => t :: ts)

/-- Each piece followed by one space, concatenated in order: the shape
of `rebuild_msg`'s output. -/
def joinPieces : List String → String
  | [] => ""
  | t :: ts => (t ++ " ") ++ joinPieces ts

/-- The accumulator loop of `rebuild_msg` computes the accumulator
followed by every leaf text with a trailing space each. -/
theorem rebuildMsgAux_eq (segs : List Segment) (acc : String) :
    rebuildMsgAux segs acc =
      (segTexts segs).map (fun ts => acc ++ joinPieces ts) := by
  induction segs generalizing acc with
  | nil => simp [rebuildMsgAux, segTexts, joinPieces]
  | cons s rest ih =>
    cases h : segText s with
    | none => simp [rebuildMsgAux, segTexts, h]
    | some t =>
      cases hr : segTexts rest with
      | none => simp [rebuildMsgAux, segTexts, h, hr, ih]
      | some ts =>
        simp [rebuildMsgAux, segTexts, h, hr, ih, joinPieces,
          String.append_assoc]

/-- `segTexts` fails exactly when some record lacks its `text` field. -/
theorem segTexts_eq_none (segs : List Segment) :
    segTexts segs = none ↔ ∃ s ∈ segs, segText s = none := by
  induction segs with
  | nil => simp [segTexts]
  | cons s rest ih => cases h : segText s <;> simp [segTexts, h, ih]

/-- A message whose flattening fails aborts the whole corpus loop. -/
theorem buildCorpusAux_none (tok : String → List String)
    (canon : String → String) (stops : List String) (msgs : List Message)
    (m : Message) (acc : String) (hm : m ∈ msgs)
    (hf : flattenText m.text = none) :
    buildCorpusAux tok canon stops msgs acc = none := by
  induction msgs generalizing acc with
  | nil => cases hm
  | cons m' rest ih =>
    rcases List.mem_cons.mp hm with rfl | hm
    · simp [buildCorpusAux, hf]
    · cases h : flattenText m'.text with
      | none => simp [buildCorpusAux, h]
      | some t =>
        simp only [buildCorpusAux, h]
        exact ih _ hm

/-- A message whose flattening fails aborts the question-index pass. -/
theorem buildQIndexAux_none (log : List Message) (m : Message)
    (idx : List (Int × Bool)) (hm : m ∈ log)
    (hf : flattenText m.text = none) :
    buildQIndexAux log idx = none := by
  induction log generalizing idx with
  | nil => cases hm
  | cons m' rest ih =>
    rcases List.mem_cons.mp hm with rfl | hm
    · simp [buildQIndexAux, msgHasQuestion, hf]
    · cases h : msgHasQuestion m' with
      | none => simp [buildQIndexAux, h]
      | some q =>
        simp only [buildQIndexAux, h]
        exact ih _ hm

/-- Appending one message to the corpus loop input appends exactly one
leading space plus that message's flattened-then-processed text. -/
theorem buildCorpusAux_snoc (tok : String → List String)
    (canon : String → String) (stops : List String) (msgs : List Message)
    (m : Message) (acc : String) :
    buildCorpusAux tok canon stops (msgs ++ [m]) acc =
      (buildCorpusAux tok canon stops msgs acc).bind
        (fun c => (flattenText m.text).map
          (fun t => c ++ (" " ++ processText tok canon stops t))) := by
  induction msgs generalizing acc with
  | nil => cases h : flattenText m.text <;> simp [buildCorpusAux, h]
  | cons m' rest ih =>
    cases h : flattenText m'.text <;> simp [buildCorpusAux, h, ih]

/-- Length of a stable descending insertion: inserting adds one. -/
theorem length_insertDesc (key : α → Nat) (x : α) (l : List α) :
    (insertDesc key x l).length = l.length + 1 := by
  induction l with
  | nil => rfl
  | cons y ys ih =>
    simp only [insertDesc]
    split
    · simp [ih]
    · simp

/-- The stable descending sort preserves length. -/
theorem length_sortDesc (key : α → Nat) (l : List α) :
    (sortDesc key l).length = l.length := by
  induction l with
  | nil => rfl
  | cons y ys ih =>
    show (insertDesc key y (sortDesc key ys)).length = ys.length + 1
    rw [length_insertDesc, ih]

/-- Claim C1: qualification in the reply scan is asymmetric — an already
tracked author gets every reply's target id appended unconditionally,
an untracked author gets a new record only when the target is a
question, seeded with that one reply id; and on the §8 scenario
`A(id=1, "is this ok?")`, `B(id=2, from_id=U1, reply_to=1)`,
`C(id=3, from_id=U1, reply_to=2)` the count of `U1` is `2`. -/
theorem claim_C1 :
    (∀ (qidx : List (Int × Bool)) (users : List (String × URec))
        (m : Message) (r : Int),
      m.reply_to_message_id = some r → (r == 0) = false →
      ((users.any (fun p => p.1 == m.from_id) = true →
          scanStep qidx users m =
            users.map (fun p =>
              if p.1 == m.from_id then (p.1, ⟨p.2.name, p.2.replies ++ [r]⟩)
              else p)) ∧
        (users.any (fun p => p.1 == m.from_id) = false → getIdx qidx r = true →
          scanStep qidx users m = users ++ [(m.from_id, ⟨m.fromName, [r]⟩)]))) ∧
    topRepliers quirkLog 10 = some [("U1name", 2)] := by
  refine ⟨fun qidx users m r hr hr0 => ⟨fun hmem => ?_, fun hmem hq => ?_⟩, by decide⟩
  · simp [scanStep, hr, hr0, hmem]
  · simp [scanStep, hr, hr0, hmem, hq]

/-- Witness for C1: the two branch equations applied at concrete inputs —
`msgC` (author already tracked, target `2` not a question) appends
unconditionally, and `msgB` (author untracked, target `1` a question)
creates the seeded record. -/
theorem claim_C1_witness :
    scanStep [(1, true)] [("U1", ⟨"U1name", [1]⟩)] msgC =
      [("U1", ⟨"U1name", [1, 2]⟩)] ∧
    scanStep [(1, true)] [] msgB = [("U1", ⟨"U1name", [1]⟩)] := by
  constructor
  · exact (((claim_C1.1 [(1, true)] [("U1", ⟨"U1name", [1]⟩)] msgC 2) rfl rfl).1
      (by decide)).trans (by decide)
  · exact (((claim_C1.1 [(1, true)] [] msgB 1) rfl rfl).2
      (by decide) (by decide)).trans (by decide)

/-- Claim C2 counterexample: permuting U1's two replies (the reply to
the non-question first) changes U1's count in the §8 scenario, so the
count is not invariant under that permutation. -/
theorem claim_C2_counterexample :
    topRepliers quirkLogSwapped 10 ≠ topRepliers quirkLog 10 ∧
    topRepliers quirkLog 10 = some [("U1name", 2)] := by
  exact ⟨by decide, by decide⟩

/-- Claim C2 (amended): in the §8 scenario the count of U1 is order
dependent — `2` when the reply to the question comes first, but `1`
when the reply to the non-question comes first, because an untracked
author's reply to a non-question is silently skipped. -/
theorem claim_C2_amended :
    topRepliers quirkLog 10 = some [("U1name", 2)] ∧
    topRepliers quirkLogSwapped 10 = some [("U1name", 1)] := by
  exact ⟨by decide, by decide⟩

/-- Claim C9: truncation behaviour of the ranking — `top_n = 0` yields
the empty sequence (for `top_repliers` itself as well), and whenever
`top_n` is at least the number of tracked users the full ranking is
returned untruncated. -/
theorem claim_C9 :
    (∀ (log : List Message) (qidx : List (Int × Bool)),
      topRepliersIdx log qidx 0 = []) ∧
    (∀ log : List Message,
      topRepliers log 0 =
        (buildQIndex log).map (fun _ => ([] : List (String × Nat)))) ∧
    (∀ (log : List Message) (qidx : List (Int × Bool)) (n : Nat),
      (scanUsers log qidx).length ≤ n →
      topRepliersIdx log qidx n = usersWithMostReplies (scanUsers log qidx)) := by
  refine ⟨fun log qidx => rfl, fun log => ?_, fun log qidx n h => ?_⟩
  · cases hq : buildQIndex log <;> simp [topRepliers, hq, topRepliersIdx]
  · refine List.take_of_length_le ?_
    simpa [usersWithMostReplies, replyCount, length_sortDesc] using h

/-- Witness for C9: on the §8 log with the question index `[(1, true)]`
there is one tracked user, so `top_n = 5` returns the full ranking. -/
theorem claim_C9_witness :
    topRepliersIdx quirkLog [(1, true)] 5 =
      usersWithMostReplies (scanUsers quirkLog [(1, true)]) :=
  claim_C9.2.2 quirkLog [(1, true)] 5 (by decide)

/-- Claim C10: a present but falsy (`0`) `reply_to_message_id` is
treated exactly like an absent one — the message is skipped — even when
message id `0` exists, is a question, and the author is already
tracked: in `zeroLog`, `U9`'s reply to id `0` is never credited and its
count stays `1`, although id `0`'s message is a question. -/
theorem claim_C10 :
    (∀ (qidx : List (Int × Bool)) (users : List (String × URec))
        (i : Int) (nm fid : String) (t : Text),
      scanStep qidx users ⟨i, nm, fid, some 0, t⟩ = users ∧
      scanStep qidx users ⟨i, nm, fid, some 0, t⟩ =
        scanStep qidx users ⟨i, nm, fid, none, t⟩) ∧
    topRepliers zeroLog 10 = some [("Nine", 1)] ∧
    msgHasQuestion msgZero = some true := by
  exact ⟨fun qidx users i nm fid t => ⟨rfl, rfl⟩, by decide, by decide⟩

/-- Identity tokenizer used in concrete scenarios: one token per text. -/
def tokEx : String → List String := fun s => [s]

/-- Canonicalization used in the C3 counterexample: it folds the
non-canonical form `"A"` to the canonical `"a"` and fixes the rest. -/
def canonEx : String → String := fun s => if s = "A" then "a" else s

/-- Claim C3 counterexample: with stopword file line `"a"`, tokenizer
`tokEx` and canonicalization `canonEx`, the token `"A"` canonicalizes
into the canonicalized stopword set, so the claim says it is dropped —
but `process_text` tests the raw token and keeps it. -/
theorem claim_C3_counterexample :
    canonEx "A" ∈ stopSet canonEx ["a"] ∧
    filteredTokens tokEx canonEx ["a"] "A" = ["A"] ∧
    processText tokEx canonEx ["a"] "A" = "a" := by
  exact ⟨by decide, by decide, by decide⟩

/-- Claim C3 (amended): a token is dropped iff the raw, uncanonicalized
token is an exact-match member of the canonicalized stopword set; the
canonicalization function is applied to the stopwords at load time and
once to the joined surviving tokens, but not to a token before its
membership test. -/
theorem claim_C3_amended :
    ∀ (tok : String → List String) (canon : String → String)
      (stops : List String) (text t : String),
      (t ∈ filteredTokens tok canon stops text ↔
        t ∈ tok text ∧ t ∉ stopSet canon stops) ∧
      processText tok canon stops text =
        canon (String.intercalate " " (filteredTokens tok canon stops text)) := by
  intro tok canon stops text t
  refine ⟨?_, rfl⟩
  simp [filteredTokens]

/-- Claim C4 counterexample: flattening the one-element sequence
`["a"]` yields `"a "` with a trailing separator, not the plain join
`"a"` the claim describes. -/
theorem claim_C4_counterexample :
    flattenText (Text.seq [Segment.str "a"]) ≠ some "a" ∧
    flattenText (Text.seq [Segment.str "a"]) = some "a " := by
  exact ⟨by decide, by decide⟩

/-- Claim C4 (amended): `flatten` is the identity on plain strings, and
on a sequence it visits the elements in order, takes record `text`
fields and strings as-is, and returns every visited piece followed by
one space each — i.e. the pieces joined by single spaces with one extra
trailing separator when the sequence is non-empty (no piece dropped,
order preserved). -/
theorem claim_C4_amended :
    (∀ s : String, flattenText (Text.plain s) = some s) ∧
    (∀ segs : List Segment,
      flattenText (Text.seq segs) = (segTexts segs).map joinPieces) := by
  refine ⟨fun s => rfl, fun segs => ?_⟩
  have h := rebuildMsgAux_eq segs ""
  simpa [flattenText, rebuildMsg] using h

/-- The corpus scenario log: processed texts `"hello"` and `""`. -/
def corpusLog : List Message :=
  [⟨1, "H", "UH", none, .plain "hello"⟩, ⟨2, "E", "UE", none, .plain "bye"⟩]

/-- Claim C5: the corpus loop appends, per message in order, one single
leading space followed by that message's flattened-then-filtered text
(an empty processed text still contributes its lone space), and the
two-message scenario with processed texts `"hello"` and `""` builds
exactly `" hello "`. -/
theorem claim_C5 :
    (∀ (tok : String → List String) (canon : String → String)
        (stops : List String) (msgs : List Message) (m : Message),
      buildCorpus tok canon stops (msgs ++ [m]) =
        (buildCorpus tok canon stops msgs).bind
          (fun c => (flattenText m.text).map
            (fun t => c ++ (" " ++ processText tok canon stops t)))) ∧
    buildCorpus tokEx (fun s => s) ["bye"] corpusLog = some " hello " := by
  exact ⟨fun tok canon stops msgs m =>
    buildCorpusAux_snoc tok canon stops msgs m "", by decide⟩

/-- A record segment lacking its `text` field, with entity metadata. -/
def badSeg : Segment := Segment.record none [("type", "bold")]

/-- A message whose sequence text contains `badSeg`. -/
def badMsg : Message := ⟨7, "Bad", "UB", none, .seq [Segment.str "hi", badSeg]⟩

/-- Claim C8: flattening fails exactly when some record lacks a `text`
field; a record that has one contributes its value whatever its other
metadata; and the failure is surfaced to the caller, aborting the
containing pass — the whole corpus build and, through the question
index, the whole `get_top_users` call — with no partial skip. -/
theorem claim_C8 :
    (∀ segs : List Segment,
      flattenText (Text.seq segs) = none ↔ ∃ s ∈ segs, segText s = none) ∧
    (∀ (t : String) (meta : List (String × String)) (segs : List Segment)
        (acc : String),
      rebuildMsgAux (Segment.record (some t) meta :: segs) acc =
        rebuildMsgAux segs (acc ++ (t ++ " "))) ∧
    (∀ (tok : String → List String) (canon : String → String)
        (stops : List String) (msgs : List Message) (m : Message),
      m ∈ msgs → flattenText m.text = none →
      buildCorpus tok canon stops msgs = none) ∧
    (∀ (log : List Message) (m : Message) (n : Nat),
      m ∈ log → flattenText m.text = none → topRepliers log n = none) := by
  refine ⟨fun segs => ?_, fun t meta segs acc => rfl,
    fun tok canon stops msgs m hm hf =>
      buildCorpusAux_none tok canon stops msgs m "" hm hf,
    fun log m n hm hf => ?_⟩
  · rw [show flattenText (Text.seq segs) = rebuildMsgAux segs "" from rfl,
      rebuildMsgAux_eq, Option.map_eq_none']
    exact segTexts_eq_none segs
  · simp [topRepliers, buildQIndex, buildQIndexAux_none log m [] hm hf]

/-- Witness for C8: a log containing `badMsg` makes both the corpus
build and `get_top_users` fail as a whole. -/
theorem claim_C8_witness :
    buildCorpus tokEx (fun s => s) [] [badMsg] = none ∧
    topRepliers [badMsg] 10 = none := by
  constructor
  · exact claim_C8.2.2.1 tokEx (fun s => s) [] [badMsg] badMsg (by decide)
      (by decide)
  · exact claim_C8.2.2.2 [badMsg] badMsg 10 (by decide) (by decide)

/-- Unfolding of the stable descending sort on a cons. -/
theorem sortDesc_cons (key : α → Nat) (y : α) (ys : List α) :
    sortDesc key (y :: ys) = insertDesc key y (sortDesc key ys) := rfl

/-- Membership after a stable descending insertion. -/
theorem mem_insertDesc (key : α → Nat) (x a : α) (l : List α) :
    a ∈ insertDesc key x l ↔ a = x ∨ a ∈ l := by
  induction l with
  | nil => simp [insertDesc]
  | cons y ys ih =>
    simp only [insertDesc]
    split
    · simp only [List.mem_cons, ih]
      tauto
    · simp only [List.mem_cons]

/-- The stable descending sort preserves membership. -/
theorem mem_sortDesc (key : α → Nat) (a : α) (l : List α) :
    a ∈ sortDesc key l ↔ a ∈ l := by
  induction l with
  | nil => simp [sortDesc]
  | cons y ys ih =>
    rw [sortDesc_cons]
    simp [mem_insertDesc, ih]

/-- Stable descending insertion into a descending list stays descending. -/
theorem pairwise_insertDesc (key : α → Nat) (x : α) (l : List α)
    (h : l.Pairwise (fun a b => key b ≤ key a)) :
    (insertDesc key x l).Pairwise (fun a b => key b ≤ key a) := by
  induction l with
  | nil => simp [insertDesc]
  | cons y ys ih =>
    rcases List.pairwise_cons.mp h with ⟨hy, hys⟩
    simp only [insertDesc]
    split
    · rename_i hlt
      refine List.pairwise_cons.mpr ⟨?_, ih hys⟩
      intro b hb
      rcases (mem_insertDesc key x b ys).mp hb with rfl | hb
      · exact Nat.le_of_lt hlt
      · exact hy b hb
    · rename_i hge
      refine List.pairwise_cons.mpr ⟨?_, h⟩
      intro b hb
      rcases List.mem_cons.mp hb with rfl | hb
      · exact Nat.le_of_not_lt hge
      · exact Nat.le_trans (hy b hb) (Nat.le_of_not_lt hge)

/-- The stable descending sort yields keys in non-increasing order. -/
theorem pairwise_sortDesc (key : α → Nat) (l : List α) :
    (sortDesc key l).Pairwise (fun a b => key b ≤ key a) := by
  induction l with
  | nil => simp [sortDesc]
  | cons y ys ih =>
    rw [sortDesc_cons]
    exact pairwise_insertDesc key y _ ih

/-- Stability of the insertion step: restricted to any one key value,
inserting behaves like consing — the relative order of equal keys is the
input order. -/
theorem filter_insertDesc (key : α → Nat) (c : Nat) (x : α) (l : List α) :
    (insertDesc key x l).filter (fun a => key a == c) =
      (x :: l).filter (fun a => key a == c) := by
  induction l with
  | nil => rfl
  | cons y ys ih =>
    simp only [insertDesc]
    split
    · rename_i hlt
      by_cases hx : key x = c <;> by_cases hy : key y = c
      · exact absurd hlt (by omega)
      · simp [List.filter_cons, hx, hy, ih]
      · simp [List.filter_cons, hx, hy, ih]
      · simp [List.filter_cons, hx, hy, ih]
    · rfl

/-- Stability of the stable descending sort: restricted to any one key
value it is the identity, i.e. equal-key elements keep their original
relative order. -/
theorem filter_sortDesc (key : α → Nat) (c : Nat) (l : List α) :
    (sortDesc key l).filter (fun a => key a == c) =
      l.filter (fun a => key a == c) := by
  induction l with
  | nil => rfl
  | cons y ys ih =>
    rw [sortDesc_cons, filter_insertDesc]
    simp [List.filter_cons, ih]

/-- The `(display name, count)` pairs in the order in which the
`UserReplyRecord`s were created (the insertion order of the `users`
dict), before sorting. -/
def creationRanking (users : List (String × URec)) : List (String × Nat) :=
  (replyCount users).map (fun u => (getName users u.1, u.2))

/-- The `from_id`s of reply messages in order of their first occurrence
during the reply scan (messages whose `reply_to_message_id` is absent
or falsy do not take part in the scan). -/
def firstSeenRepliers (log : List Message) : List String :=
  log.foldl (fun acc m =>
    match m.reply_to_message_id with
    | none => acc
    | some r =>
      if r == 0 then acc
      else if acc.contains m.from_id then acc else acc ++ [m.from_id]) []

/-- A log producing a tie: `U1` (name `AL`) replies first in the scan,
but its first reply targets a dangling id so its record is created
after `U2`'s (name `BEA`); both end with count `1`. -/
def tieLog : List Message :=
  [⟨1, "Quinn", "U0", none, .plain "ok?"⟩,
   ⟨2, "AL", "U1", some 999, .plain "a"⟩,
   ⟨3, "BEA", "U2", some 1, .plain "b"⟩,
   ⟨4, "AL", "U1", some 1, .plain "c"⟩]

/-- Claim C6 counterexample: in `tieLog` both tracked users end with
count `1`, `U1` occurs first in the reply scan (`firstSeenRepliers`),
yet the output lists `U2`'s entry (`BEA`) before `U1`'s (`AL`): ties
are not ordered by first occurrence of the `from_id` in the scan. -/
theorem claim_C6_counterexample :
    topRepliers tieLog 10 = some [("BEA", 1), ("AL", 1)] ∧
    firstSeenRepliers tieLog = ["U1", "U2"] ∧
    tieLog.map Message.from_id = ["U0", "U1", "U2", "U1"] ∧
    tieLog.map Message.fromName = ["Quinn", "AL", "BEA", "AL"] := by
  exact ⟨by decide, by decide, by decide, by decide⟩

/-- Claim C6 (amended): the sequence returned by `top_repliers` is
sorted by count in descending order, and two entries with equal counts
appear in the same relative order as the creation of their
`UserReplyRecord`s (the insertion order of the `users` dict — the first
credited reply), not as the first occurrence of the `from_id` in the
scan. -/
theorem claim_C6_amended :
    ∀ (log : List Message) (qidx : List (Int × Bool)) (n c : Nat),
      (topRepliersIdx log qidx n).Pairwise (fun a b => b.2 ≤ a.2) ∧
      (usersWithMostReplies (scanUsers log qidx)).filter
          (fun e => e.2 == c) =
        (creationRanking (scanUsers log qidx)).filter
          (fun e => e.2 == c) := by
  intro log qidx n c
  constructor
  · have hp := pairwise_sortDesc (fun x : String × Nat => x.2)
      (replyCount (scanUsers log qidx))
    have hmap : (usersWithMostReplies (scanUsers log qidx)).Pairwise
        (fun a b => b.2 ≤ a.2) :=
      List.Pairwise.map _ (fun a b h => h) hp
    exact hmap.sublist (List.take_sublist _ _)
  · show ((sortDesc (fun x : String × Nat => x.2)
        (replyCount (scanUsers log qidx))).map
          (fun u => (getName (scanUsers log qidx) u.1, u.2))).filter
        (fun e => e.2 == c) =
      ((replyCount (scanUsers log qidx)).map
          (fun u => (getName (scanUsers log qidx) u.1, u.2))).filter
        (fun e => e.2 == c)
    rw [List.filter_map, List.filter_map]
    congr 1
    exact filter_sortDesc (fun x : String × Nat => x.2) c _

/-- Reading the question index after one write. -/
theorem getIdx_cons (k : Int) (v : Bool) (idx : List (Int × Bool)) (r : Int) :
    getIdx ((k, v) :: idx) r = if k == r then v else getIdx idx r := by
  cases h : k == r <;> simp [getIdx, List.find?, h]

/-- Every key readable as `true` from a built question index was either
already readable from the starting index or is the id of some indexed
message (so a dangling reply target always reads as `false`). -/
theorem qidx_sound (msgs : List Message) :
    ∀ idx out : List (Int × Bool), buildQIndexAux msgs idx = some out →
      ∀ r : Int, getIdx out r = true →
        getIdx idx r = true ∨ ∃ m ∈ msgs, m.id = r := by
  induction msgs with
  | nil =>
    intro idx out h r hr
    simp only [buildQIndexAux, Option.some.injEq] at h
    subst h
    exact Or.inl hr
  | cons m rest ih =>
    intro idx out h r hr
    cases hq : msgHasQuestion m with
    | none => simp [buildQIndexAux, hq] at h
    | some q =>
      simp only [buildQIndexAux, hq] at h
      rcases ih _ _ h r hr with hin | ⟨m', hm', hid⟩
      · rw [getIdx_cons] at hin
        cases hk : m.id == r with
        | true => exact Or.inr ⟨m, List.mem_cons_self m rest, by simpa using hk⟩
        | false =>
          rw [hk, if_neg (by simp)] at hin
          exact Or.inl hin
      · exact Or.inr ⟨m', List.mem_cons_of_mem m hm', hid⟩

/-- One reply-scan step never creates a record for an author all of
whose credited targets would read as non-questions. -/
theorem scanStep_keys (qidx : List (Int × Bool)) (users : List (String × URec))
    (m : Message) (u : String)
    (hu : ∀ p ∈ users, p.1 ≠ u)
    (hm : m.from_id = u → ∀ r : Int, m.reply_to_message_id = some r →
      (r == 0) = false → getIdx qidx r = false) :
    ∀ p ∈ scanStep qidx users m, p.1 ≠ u := by
  intro p hp
  cases hrep : m.reply_to_message_id with
  | none =>
    simp only [scanStep, hrep] at hp
    exact hu p hp
  | some r =>
    cases hr0 : r == 0 with
    | true =>
      simp [scanStep, hrep, hr0] at hp
      exact hu p hp
    | false =>
      cases hmem : users.any (fun q => q.1 == m.from_id) with
      | true =>
        simp [scanStep, hrep, hr0, hmem] at hp
        rcases hp with ⟨q, qr, hq, heq⟩
        subst heq
        split
        · exact hu (q, qr) hq
        · exact hu (q, qr) hq
      | false =>
        cases hqi : getIdx qidx r with
        | true =>
          simp [scanStep, hrep, hr0, hmem, hqi] at hp
          rcases hp with hp | hp
          · exact hu p hp
          · subst hp
            intro heq
            have hfalse := hm heq r hrep hr0
            rw [hqi] at hfalse
            cases hfalse
        | false =>
          simp [scanStep, hrep, hr0, hmem, hqi] at hp
          exact hu p hp

/-- The reply scan never creates a record for an author all of whose
replies target non-questions (per the question index). -/
theorem foldl_scan_keys (qidx : List (Int × Bool)) (u : String)
    (msgs : List Message) :
    ∀ users : List (String × URec),
      (∀ p ∈ users, p.1 ≠ u) →
      (∀ m ∈ msgs, m.from_id = u → ∀ r : Int,
        m.reply_to_message_id = some r → (r == 0) = false →
        getIdx qidx r = false) →
      ∀ p ∈ msgs.foldl (scanStep qidx) users, p.1 ≠ u := by
  induction msgs with
  | nil => exact fun users hu _ p hp => hu p hp
  | cons m rest ih =>
    intro users hu hmsgs
    rw [List.foldl_cons]
    exact ih (scanStep qidx users m)
      (scanStep_keys qidx users m u hu (hmsgs m (List.mem_cons_self m rest)))
      (fun m' hm' => hmsgs m' (List.mem_cons_of_mem m hm'))

/-- Claim C7: a dangling `reply_to_message_id` is no error — when every
reply of author `u` targets an id that no message of the log has, `u`
never receives a `UserReplyRecord`, and every entry of the
`top_repliers` output stems from the record of some other author. -/
theorem claim_C7 :
    ∀ (log : List Message) (qidx : List (Int × Bool)) (u : String) (n : Nat),
      buildQIndex log = some qidx →
      (∀ m ∈ log, m.from_id = u → ∀ r : Int,
        m.reply_to_message_id = some r → ∀ m2 ∈ log, m2.id ≠ r) →
      ((scanUsers log qidx).all fun p => !(p.1 == u)) = true ∧
      ∀ e ∈ topRepliersIdx log qidx n, ∃ p ∈ scanUsers log qidx,
        p.1 ≠ u ∧ e = (getName (scanUsers log qidx) p.1, p.2.replies.length) := by
  intro log qidx u n hidx hd
  have hkey : ∀ p ∈ scanUsers log qidx, p.1 ≠ u := by
    refine foldl_scan_keys qidx u log [] (by simp) ?_
    intro m hm hfid r hrep _
    cases hq : getIdx qidx r with
    | false => rfl
    | true =>
      rcases qidx_sound log [] qidx hidx r hq with hin | ⟨m2, hm2, hid⟩
      · simp [getIdx] at hin
      · exact absurd hid (hd m hm hfid r hrep m2 hm2)
  constructor
  · rw [List.all_eq_true]
    intro p hp
    simpa using hkey p hp
  · intro e he
    have he1 : e ∈ usersWithMostReplies (scanUsers log qidx) :=
      List.mem_of_mem_take he
    rcases List.mem_map.mp he1 with ⟨x, hx, rfl⟩
    have hx2 : x ∈ replyCount (scanUsers log qidx) :=
      (mem_sortDesc _ x _).mp hx
    rcases List.mem_map.mp hx2 with ⟨p, hp, rfl⟩
    exact ⟨p, hp, hkey p hp, rfl⟩

/-- The dangling-reference scenario: `U2` only replies to id `999`,
which no message of the log has. -/
def danglingLog : List Message :=
  [⟨1, "Quinn", "U0", none, .plain "ok?"⟩,
   ⟨4, "Two", "U2", some 999, .plain "hi"⟩]

/-- Witness for C7: in `danglingLog`, `U2` gets no record. -/
theorem claim_C7_witness :
    ((scanUsers danglingLog [(4, false), (1, true)]).all
      fun p => !(p.1 == "U2")) = true :=
  (claim_C7 danglingLog [(4, false), (1, true)] "U2" 10 (by decide)
    (by
      intro m hm hfid r hrep m2 hm2
      fin_cases hm <;> fin_cases hm2 <;> simp_all <;> omega)).1
